import Mathlib

/-!
Verification of the speech-segmentation core of `src/main.py`:
`frame_generator` (frame slicing, lines 28-36) and `vad_collector` (the
triggered/untriggered segment-collection state machine, lines 38-61).

Timestamps and durations are modelled as exact rationals (the spec allows
"float or fixed-point"); Python's `int()` truncation and list slicing are
modelled explicitly; the `while` loop of `frame_generator` is modelled with
explicit fuel so that non-termination is expressible.
-/

namespace AutoEdit

/-- Python `int()` applied to a rational: truncation toward zero. -/
def pyInt (q : ℚ) : Int := if 0 ≤ q then ⌊q⌋ else ⌈q⌉

/-- Python list slice `xs[a:b]` with clamping of out-of-range and negative
indices. -/
def pySlice (xs : List Nat) (a b : Int) : List Nat :=
  let len : Int := xs.length
  let norm : Int → Int := fun i => if i < 0 then max 0 (len + i) else min i len
  (xs.take (norm b).toNat).drop ((norm a).toNat)

/-- A frame yielded by `frame_generator`: the raw byte slice, its start
timestamp in seconds and its duration in seconds. -/
structure Frame where
  data : List Nat
  timestamp : ℚ
  duration : ℚ
deriving DecidableEq, Repr

/-- The `while offset + n < len(audio)` loop of `frame_generator`
(src/main.py lines 33-36), with explicit fuel: `none` means the fuel ran
out while the loop guard was still true (the loop is still running). -/
def frameGenAux (audio : List Nat) (n : Int) :
    Nat → Int → ℚ → ℚ → Option (List Frame)
  | 0, offset, _, _ =>
      if offset + n < (audio.length : Int) then none else some []
  | fuel + 1, offset, ts, dur =>
      if offset + n < (audio.length : Int) then
        (frameGenAux audio n fuel (offset + n) (ts + dur) dur).map
          (fun rest => ⟨pySlice audio offset (offset + n), ts, dur⟩ :: rest)
      else some []

/-- `frame_generator(frame_duration_ms, audio, sample_rate)` from
src/main.py lines 28-36: `n = int(sample_rate * (frame_duration_ms / 1000.0) * 2)`,
`duration = float(n) / sample_rate / 2`, then the slicing loop. -/
def frame_generator (frame_duration_ms : ℚ) (audio : List Nat)
    (sample_rate : Int) (fuel : Nat) : Option (List Frame) :=
  let n : Int := pyInt ((sample_rate : ℚ) * (frame_duration_ms / 1000) * 2)
  let duration : ℚ := (n : ℚ) / (sample_rate : ℚ) / 2
  frameGenAux audio n fuel 0 0 duration

/-- Termination of `frame_generator`: some amount of fuel lets the loop
reach its exit condition. -/
def frameGenTerminates (frame_duration_ms : ℚ) (audio : List Nat)
    (sample_rate : Int) : Prop :=
  ∃ fuel, (frame_generator frame_duration_ms audio sample_rate fuel).isSome = true

/-- Collector state of `vad_collector` (src/main.py lines 38-61):
the bounded ring buffer of (frame, is_speech) pairs, the `triggered` flag,
the recorded `start_time`, and the `voiced_frames` bookkeeping list. -/
structure VCState where
  ringBuffer : List (Frame × Bool)
  triggered : Bool
  startTime : ℚ
  voicedFrames : List (ℚ × ℚ)
deriving DecidableEq, Repr

/-- `collections.deque(maxlen=cap).append`: append on the right, evicting
from the left once over capacity. -/
def ringPush (cap : Nat) (buf : List (Frame × Bool)) (x : Frame × Bool) :
    List (Frame × Bool) :=
  let b := buf ++ [x]
  b.drop (b.length - cap)

/-- One iteration of the `for frame, timestamp, duration in frames` loop of
`vad_collector` (src/main.py lines 43-59): returns the next state and the
segment emitted by this iteration, if any. -/
def vadStep (vad : List Nat → Int → Bool) (sample_rate : Int) (cap : Nat)
    (st : VCState) (fr : Frame) : VCState × Option (ℚ × ℚ) :=
  let isSpeech := vad fr.data sample_rate
  if st.triggered = false then
    let rb := ringPush cap st.ringBuffer (fr, isSpeech)
    if isSpeech then
      (⟨[], true, fr.timestamp,
        st.voicedFrames ++
          (rb.filter (fun p => p.2)).map
            (fun p => (p.1.timestamp, p.1.timestamp + p.1.duration))⟩,
       none)
    else
      ({ st with ringBuffer := rb }, none)
  else
    if isSpeech = false then
      ({ st with triggered := false },
       some (st.startTime, fr.timestamp + fr.duration))
    else
      ({ st with voicedFrames :=
          st.voicedFrames ++ [(fr.timestamp, fr.timestamp + fr.duration)] },
       none)

/-- The full frame loop of `vad_collector` plus the final
`if triggered: yield (start_time, timestamp + duration)` (src/main.py
lines 60-61); `lastEnd` carries `timestamp + duration` of the most recently
processed frame (Python's leaked loop variables). -/
def vadLoop (vad : List Nat → Int → Bool) (sample_rate : Int) (cap : Nat) :
    VCState → ℚ → List Frame → List (ℚ × ℚ)
  | st, lastEnd, [] => if st.triggered then [(st.startTime, lastEnd)] else []
  | st, _, fr :: rest =>
      (vadStep vad sample_rate cap st fr).2.toList ++
        vadLoop vad sample_rate cap (vadStep vad sample_rate cap st fr).1
          (fr.timestamp + fr.duration) rest

/-- Initial collector state: empty ring buffer, untriggered, no voiced
frames; the 0 in the `startTime` slot is never read before being set. -/
def initState : VCState := ⟨[], false, 0, []⟩

/-- `vad_collector(sample_rate, frame_duration_ms, padding_duration_ms, vad, frames)`
from src/main.py lines 38-61. `none` models the exceptions Python raises
while setting up: `ZeroDivisionError` when `frame_duration_ms = 0`, and
`ValueError` from `deque(maxlen=...)` when
`int(padding_duration_ms / frame_duration_ms)` is negative. -/
def vad_collector (sample_rate : Int) (frame_duration_ms padding_duration_ms : ℚ)
    (vad : List Nat → Int → Bool) (frames : List Frame) :
    Option (List (ℚ × ℚ)) :=
  if frame_duration_ms = 0 then none
  else
    let num_padding_frames := pyInt (padding_duration_ms / frame_duration_ms)
    if num_padding_frames < 0 then none
    else some (vadLoop vad sample_rate num_padding_frames.toNat initState 0 frames)

/-- The timestamp of the first frame, 0 for an empty sequence. -/
def firstTs : List Frame → ℚ
  | [] => 0
  | f :: _ => f.timestamp

/-- An oracle that classifies a frame as speech exactly when its byte
buffer is empty; used to build concrete runs. -/
def oracleEmpty : List Nat → Int → Bool := fun d _ => d.isEmpty

/-- An oracle that classifies every frame as speech. -/
def oracleTrue : List Nat → Int → Bool := fun _ _ => true

/-- An oracle that classifies every frame as non-speech. -/
def oracleFalse : List Nat → Int → Bool := fun _ _ => false

/-- Frame `i` of the synthetic ten-frame sequence of §8 of the spec:
frames 0-4 and 6-9 are speech (empty data), frame 5 is non-speech;
30 ms frames starting at time 0. -/
def frC3 (i : Nat) : Frame :=
  ⟨if i == 5 then [0] else [], (3 * i : ℚ) / 100, 3 / 100⟩

/-- The synthetic ten-frame sequence: frames 0-4 speech, frame 5
non-speech, frames 6-9 speech. -/
def framesC3 : List Frame := (List.range 10).map frC3

theorem pyInt_nonneg (q : ℚ) (h : 0 ≤ q) : 0 ≤ pyInt q := by
  simp only [pyInt, if_pos h]
  exact Int.floor_nonneg.mpr h

theorem vad_collector_pos (sr : Int) (fm pm : ℚ)
    (vad : List Nat → Int → Bool) (frames : List Frame)
    (hf : 0 < fm) (hp : 0 ≤ pm) :
    vad_collector sr fm pm vad frames =
      some (vadLoop vad sr (pyInt (pm / fm)).toNat initState 0 frames) := by
  have h1 : fm ≠ 0 := ne_of_gt hf
  have h2 : 0 ≤ pyInt (pm / fm) := pyInt_nonneg _ (div_nonneg hp hf.le)
  simp [vad_collector, h1, not_lt.mpr h2]

theorem vadLoop_nil (vad : List Nat → Int → Bool) (sr : Int) (cap : Nat)
    (st : VCState) (le : ℚ) :
    vadLoop vad sr cap st le [] =
      if st.triggered then [(st.startTime, le)] else [] := rfl

theorem vadLoop_untriggered_speech (vad : List Nat → Int → Bool) (sr : Int)
    (cap : Nat) (st : VCState) (le : ℚ) (fr : Frame) (rest : List Frame)
    (hst : st.triggered = false) (hsp : vad fr.data sr = true) :
    vadLoop vad sr cap st le (fr :: rest) =
      vadLoop vad sr cap
        ⟨[], true, fr.timestamp,
          st.voicedFrames ++
            ((ringPush cap st.ringBuffer (fr, true)).filter (fun p => p.2)).map
              (fun p => (p.1.timestamp, p.1.timestamp + p.1.duration))⟩
        (fr.timestamp + fr.duration) rest := by
  simp [vadLoop, vadStep, hst, hsp]

theorem vadLoop_untriggered_silence (vad : List Nat → Int → Bool) (sr : Int)
    (cap : Nat) (st : VCState) (le : ℚ) (fr : Frame) (rest : List Frame)
    (hst : st.triggered = false) (hsp : vad fr.data sr = false) :
    vadLoop vad sr cap st le (fr :: rest) =
      vadLoop vad sr cap
        { st with ringBuffer := ringPush cap st.ringBuffer (fr, false) }
        (fr.timestamp + fr.duration) rest := by
  simp [vadLoop, vadStep, hst, hsp]

theorem vadLoop_triggered_speech (vad : List Nat → Int → Bool) (sr : Int)
    (cap : Nat) (st : VCState) (le : ℚ) (fr : Frame) (rest : List Frame)
    (hst : st.triggered = true) (hsp : vad fr.data sr = true) :
    vadLoop vad sr cap st le (fr :: rest) =
      vadLoop vad sr cap
        { st with voicedFrames :=
            st.voicedFrames ++ [(fr.timestamp, fr.timestamp + fr.duration)] }
        (fr.timestamp + fr.duration) rest := by
  simp [vadLoop, vadStep, hst, hsp]

theorem vadLoop_triggered_silence (vad : List Nat → Int → Bool) (sr : Int)
    (cap : Nat) (st : VCState) (le : ℚ) (fr : Frame) (rest : List Frame)
    (hst : st.triggered = true) (hsp : vad fr.data sr = false) :
    vadLoop vad sr cap st le (fr :: rest) =
      (st.startTime, fr.timestamp + fr.duration) ::
        vadLoop vad sr cap { st with triggered := false }
          (fr.timestamp + fr.duration) rest := by
  simp [vadLoop, vadStep, hst, hsp]

theorem vadLoop_lastEnd_of_untriggered (vad : List Nat → Int → Bool)
    (sr : Int) (cap : Nat) (st : VCState) (le le' : ℚ) (fs : List Frame)
    (hst : st.triggered = false) :
    vadLoop vad sr cap st le fs = vadLoop vad sr cap st le' fs := by
  cases fs with
  | nil => simp [vadLoop, hst]
  | cons fr rest => rfl

theorem vadLoop_segments_wf (vad : List Nat → Int → Bool) (sr : Int) (cap : Nat) :
    ∀ (fs : List Frame) (st : VCState) (le : ℚ),
      (∀ fr ∈ fs, 0 < fr.duration) →
      fs.Chain' (fun a b => a.timestamp + a.duration ≤ b.timestamp) →
      (∀ f0 ∈ fs.head?, le ≤ f0.timestamp) →
      (st.triggered = true → st.startTime < le) →
      (∀ s ∈ vadLoop vad sr cap st le fs, s.1 < s.2) ∧
      (vadLoop vad sr cap st le fs).Chain' (fun s t => s.2 ≤ t.1) ∧
      (∀ s ∈ (vadLoop vad sr cap st le fs).head?,
        (if st.triggered = true then st.startTime else le) ≤ s.1) := by
  intro fs
  induction fs with
  | nil =>
    intro st le _ _ _ hst
    cases h : st.triggered with
    | false => simp [vadLoop, h]
    | true => simp [vadLoop, h, hst h]
  | cons fr rest ih =>
    intro st le hd hc hh hst
    have hdfr : 0 < fr.duration := hd fr (List.mem_cons_self fr rest)
    have hd' : ∀ f ∈ rest, 0 < f.duration :=
      fun f hf => hd f (List.mem_cons_of_mem fr hf)
    have hcc := List.chain'_cons'.mp hc
    have hnext : ∀ b ∈ rest.head?, fr.timestamp + fr.duration ≤ b.timestamp := hcc.1
    have hc' := hcc.2
    have hfr0 : le ≤ fr.timestamp := hh fr rfl
    cases hst' : st.triggered with
    | false =>
      cases hsp : vad fr.data sr with
      | true =>
        rw [vadLoop_untriggered_speech vad sr cap st le fr rest hst' hsp]
        obtain ⟨A, B, C⟩ :=
          ih ⟨[], true, fr.timestamp,
              st.voicedFrames ++
                ((ringPush cap st.ringBuffer (fr, true)).filter
                  (fun p => p.2)).map
                  (fun p => (p.1.timestamp, p.1.timestamp + p.1.duration))⟩
            (fr.timestamp + fr.duration) hd' hc' hnext
            (fun _ => lt_add_of_pos_right fr.timestamp hdfr)
        refine ⟨A, B, ?_⟩
        intro s hs
        have hC := C s hs
        simp only [if_pos rfl] at hC
        simp [hst']
        exact le_trans hfr0 hC
      | false =>
        rw [vadLoop_untriggered_silence vad sr cap st le fr rest hst' hsp]
        obtain ⟨A, B, C⟩ :=
          ih { st with ringBuffer := ringPush cap st.ringBuffer (fr, false) }
            (fr.timestamp + fr.duration) hd' hc' hnext
            (by intro h; simp [hst'] at h)
        refine ⟨A, B, ?_⟩
        intro s hs
        have hC := C s hs
        simp [hst'] at hC ⊢
        exact le_trans (hfr0.trans (le_add_of_nonneg_right hdfr.le)) hC
    | true =>
      have hstart : st.startTime < le := hst hst'
      cases hsp : vad fr.data sr with
      | true =>
        rw [vadLoop_triggered_speech vad sr cap st le fr rest hst' hsp]
        obtain ⟨A, B, C⟩ :=
          ih { st with voicedFrames :=
                st.voicedFrames ++ [(fr.timestamp, fr.timestamp + fr.duration)] }
            (fr.timestamp + fr.duration) hd' hc' hnext
            (fun _ => hstart.trans_le
              (hfr0.trans (le_add_of_nonneg_right hdfr.le)))
        refine ⟨A, B, ?_⟩
        intro s hs
        have hC := C s hs
        simp only [hst'] at hC ⊢
        exact hC
      | false =>
        rw [vadLoop_triggered_silence vad sr cap st le fr rest hst' hsp]
        obtain ⟨A, B, C⟩ :=
          ih { st with triggered := false } (fr.timestamp + fr.duration)
            hd' hc' hnext (by intro h; simp at h)
        have hfrlt : st.startTime < fr.timestamp + fr.duration :=
          hstart.trans_le (hfr0.trans (le_add_of_nonneg_right hdfr.le))
        refine ⟨?_, ?_, ?_⟩
        · intro s hs
          rcases List.mem_cons.mp hs with h | h
          · rw [h]
            exact hfrlt
          · exact A s h
        · rw [List.chain'_cons']
          refine ⟨?_, B⟩
          intro b hb
          have hC := C b hb
          simp at hC
          exact hC
        · intro s hs
          simp only [List.head?] at hs
          cases hs
          simp [hst']

theorem vadLoop_all_speech (vad : List Nat → Int → Bool) (sr : Int) (cap : Nat) :
    ∀ (fs : List Frame) (st : VCState) (le : ℚ),
      st.triggered = true → (∀ fr ∈ fs, vad fr.data sr = true) →
      vadLoop vad sr cap st le fs =
        [(st.startTime,
          fs.foldl (fun _ fr => fr.timestamp + fr.duration) le)] := by
  intro fs
  induction fs with
  | nil =>
    intro st le hst _
    simp [vadLoop, hst]
  | cons fr rest ih =>
    intro st le hst hall
    rw [vadLoop_triggered_speech vad sr cap st le fr rest hst
      (hall fr (List.mem_cons_self fr rest))]
    rw [ih { st with voicedFrames :=
          st.voicedFrames ++ [(fr.timestamp, fr.timestamp + fr.duration)] }
        (fr.timestamp + fr.duration) hst
        (fun f hf => hall f (List.mem_cons_of_mem fr hf))]
    simp

theorem foldl_end_eq_getLast :
    ∀ (rest : List Frame) (f0 : Frame) (le : ℚ),
      (f0 :: rest).foldl (fun _ fr => fr.timestamp + fr.duration) le =
        ((f0 :: rest).getLast (List.cons_ne_nil f0 rest)).timestamp +
          ((f0 :: rest).getLast (List.cons_ne_nil f0 rest)).duration := by
  intro rest
  induction rest with
  | nil =>
    intro f0 le
    simp [List.getLast]
  | cons f1 r ih =>
    intro f0 le
    rw [List.foldl_cons]
    rw [ih f1 (f0.timestamp + f0.duration)]
    rw [List.getLast_cons (List.cons_ne_nil f1 r)]

theorem vadLoop_all_silence (vad : List Nat → Int → Bool) (sr : Int) (cap : Nat) :
    ∀ (fs : List Frame) (st : VCState) (le : ℚ),
      st.triggered = false → (∀ fr ∈ fs, vad fr.data sr = false) →
      vadLoop vad sr cap st le fs = [] := by
  intro fs
  induction fs with
  | nil =>
    intro st le hst _
    simp [vadLoop, hst]
  | cons fr rest ih =>
    intro st le hst hall
    rw [vadLoop_untriggered_silence vad sr cap st le fr rest hst
      (hall fr (List.mem_cons_self fr rest))]
    exact ih _ _ hst (fun f hf => hall f (List.mem_cons_of_mem fr hf))

theorem vadLoop_cap_indep (vad : List Nat → Int → Bool) (sr : Int) :
    ∀ (fs : List Frame) (cap1 cap2 : Nat) (st1 st2 : VCState) (le : ℚ),
      st1.triggered = st2.triggered → st1.startTime = st2.startTime →
      vadLoop vad sr cap1 st1 le fs = vadLoop vad sr cap2 st2 le fs := by
  intro fs
  induction fs with
  | nil =>
    intro cap1 cap2 st1 st2 le ht hs
    rw [vadLoop_nil, vadLoop_nil, ht, hs]
  | cons fr rest ih =>
    intro cap1 cap2 st1 st2 le ht hs
    cases hst : st1.triggered with
    | false =>
      have hst2 : st2.triggered = false := ht.symm.trans hst
      cases hsp : vad fr.data sr with
      | true =>
        rw [vadLoop_untriggered_speech vad sr cap1 st1 le fr rest hst hsp,
            vadLoop_untriggered_speech vad sr cap2 st2 le fr rest hst2 hsp]
        exact ih cap1 cap2 _ _ _ rfl rfl
      | false =>
        rw [vadLoop_untriggered_silence vad sr cap1 st1 le fr rest hst hsp,
            vadLoop_untriggered_silence vad sr cap2 st2 le fr rest hst2 hsp]
        exact ih cap1 cap2 _ _ _ ht hs
    | true =>
      have hst2 : st2.triggered = true := ht.symm.trans hst
      cases hsp : vad fr.data sr with
      | true =>
        rw [vadLoop_triggered_speech vad sr cap1 st1 le fr rest hst hsp,
            vadLoop_triggered_speech vad sr cap2 st2 le fr rest hst2 hsp]
        exact ih cap1 cap2 _ _ _ ht hs
      | false =>
        rw [vadLoop_triggered_silence vad sr cap1 st1 le fr rest hst hsp,
            vadLoop_triggered_silence vad sr cap2 st2 le fr rest hst2 hsp]
        rw [hs]
        exact congrArg _ (ih cap1 cap2 _ _ _ rfl rfl)

theorem frameGenAux_run (audio : List Nat) (n r : Int) (hn : 1 ≤ n)
    (hr0 : 0 < r) (hrn : r ≤ n) :
    ∀ (k fuel : Nat) (offset : Int) (ts dur : ℚ), k ≤ fuel →
      (audio.length : Int) - offset = k * n + r →
      frameGenAux audio n fuel offset ts dur =
        some ((List.range k).map fun i =>
          ⟨pySlice audio (offset + i * n) (offset + i * n + n),
           ts + i * dur, dur⟩) := by
  intro k
  induction k with
  | zero =>
    intro fuel offset ts dur _ hlen
    have hguard : ¬ (offset + n < (audio.length : Int)) := by
      push_cast at hlen
      omega
    cases fuel with
    | zero => simp [frameGenAux, hguard]
    | succ m => simp [frameGenAux, hguard]
  | succ k ih =>
    intro fuel offset ts dur hfuel hlen
    cases fuel with
    | zero => omega
    | succ m =>
      push_cast at hlen
      have hkn : (0 : Int) ≤ (k : Int) * n := by positivity
      have hguard : offset + n < (audio.length : Int) := by nlinarith
      rw [frameGenAux, if_pos hguard]
      rw [ih m (offset + n) (ts + dur) dur (by omega) (by linarith)]
      rw [Option.map_some']
      rw [List.range_succ_eq_map, List.map_cons, List.map_map]
      simp only [Option.some.injEq, List.cons.injEq]
      constructor
      · simp
      · refine (List.map_congr_left ?_).symm
        intro i _
        simp only [Function.comp_apply]
        have e1 : offset + ((i : Int) + 1) * n = offset + n + (i : Int) * n := by
          ring
        have e2 : ts + ((i : ℚ) + 1) * dur = ts + dur + (i : ℚ) * dur := by
          ring
        push_cast
        rw [e1, e2]

theorem frameGenAux_terminates (audio : List Nat) (n : Int) (h1 : 1 ≤ n) :
    ∀ (fuel : Nat) (offset : Int) (ts dur : ℚ),
      (audio.length : Int) - offset ≤ (fuel : Int) →
      (frameGenAux audio n fuel offset ts dur).isSome = true := by
  intro fuel
  induction fuel with
  | zero =>
    intro offset ts dur h
    have hguard : ¬ (offset + n < (audio.length : Int)) := by
      push_cast at h
      omega
    simp [frameGenAux, hguard]
  | succ m ih =>
    intro offset ts dur h
    by_cases hguard : offset + n < (audio.length : Int)
    · rw [frameGenAux, if_pos hguard]
      rw [Option.isSome_map']
      refine ih (offset + n) (ts + dur) dur ?_
      push_cast at h ⊢
      omega
    · simp [frameGenAux, hguard]

theorem frameGenAux_zero_step (audio : List Nat) (ha : audio ≠ []) :
    ∀ (fuel : Nat) (ts dur : ℚ),
      frameGenAux audio 0 fuel 0 ts dur = none := by
  have hpos : (0 : Int) < (audio.length : Int) := by
    have := List.length_pos.mpr ha
    exact_mod_cast this
  intro fuel
  induction fuel with
  | zero =>
    intro ts dur
    simp [frameGenAux, hpos]
  | succ m ih =>
    intro ts dur
    rw [frameGenAux, if_pos (by simpa using hpos)]
    rw [show (0 : Int) + 0 = 0 by ring]
    rw [ih (ts + dur) dur]
    rfl

theorem frame_generator_stuck (fd : ℚ) (sr : Int) (audio : List Nat)
    (hn : pyInt ((sr : ℚ) * (fd / 1000) * 2) = 0) (ha : audio ≠ []) :
    ¬ frameGenTerminates fd audio sr := by
  rintro ⟨fuel, h⟩
  simp only [frame_generator] at h
  rw [hn] at h
  rw [frameGenAux_zero_step audio ha fuel 0 _] at h
  simp at h

/-- Claim C1 (counterexample): over arbitrary finite frame sequences the
claimed invariant fails — a frame sequence whose timestamps go backwards
makes `vad_collector` emit the segment (1, 1/2), whose start is not less
than its end. -/
theorem C1_counterexample :
    vad_collector 16000 1 0 oracleEmpty [⟨[], 1, 1⟩, ⟨[0], 0, 1 / 2⟩] =
      some [(1, 1 / 2)] ∧ ¬ ((1 : ℚ) < 1 / 2) := by
  constructor
  · norm_num [vad_collector, vadLoop, vadStep, ringPush, initState, pyInt,
      oracleEmpty]
  · norm_num

/-- Claim C1 (amended): for every frame sequence satisfying the Frame
invariants of §4.1 (positive durations, consecutive frames non-overlapping:
each frame ends no later than the next one starts) and every oracle, any
segment list produced by `vad_collector` is disjoint and ordered: every
segment has start < end, and each segment ends no later than the next one
starts. -/
theorem C1_order (sr : Int) (fm pm : ℚ) (vad : List Nat → Int → Bool)
    (frames : List Frame) (segs : List (ℚ × ℚ))
    (hd : ∀ fr ∈ frames, 0 < fr.duration)
    (hc : frames.Chain' (fun a b => a.timestamp + a.duration ≤ b.timestamp))
    (hrun : vad_collector sr fm pm vad frames = some segs) :
    (∀ s ∈ segs, s.1 < s.2) ∧ segs.Chain' (fun s t => s.2 ≤ t.1) := by
  simp only [vad_collector] at hrun
  by_cases h1 : fm = 0
  · rw [if_pos h1] at hrun
    exact absurd hrun (by simp)
  · rw [if_neg h1] at hrun
    by_cases h2 : pyInt (pm / fm) < 0
    · rw [if_pos h2] at hrun
      exact absurd hrun (by simp)
    · rw [if_neg h2] at hrun
      have hsegs : segs =
          vadLoop vad sr (pyInt (pm / fm)).toNat initState 0 frames :=
        (Option.some.inj hrun).symm
      rw [hsegs]
      rw [vadLoop_lastEnd_of_untriggered vad sr (pyInt (pm / fm)).toNat
        initState 0 (firstTs frames) frames rfl]
      have H := vadLoop_segments_wf vad sr (pyInt (pm / fm)).toNat frames
        initState (firstTs frames) hd hc
        (by
          intro f0 hf0
          cases frames with
          | nil => simp at hf0
          | cons a l =>
            simp only [List.head?, Option.mem_def, Option.some.injEq] at hf0
            rw [← hf0]
            simp [firstTs])
        (by intro h; simp [initState] at h)
      exact ⟨H.1, H.2.1⟩

/-- Claim C1 (witness): the ten-frame synthetic run produces two segments,
and they satisfy the disjointness and ordering invariant. -/
theorem C1_order_witness :
    (∀ s ∈ [((0 : ℚ), (9 / 50 : ℚ)), (9 / 50, 3 / 10)], s.1 < s.2) ∧
    List.Chain' (fun s t => s.2 ≤ t.1)
      [((0 : ℚ), (9 / 50 : ℚ)), (9 / 50, 3 / 10)] :=
  C1_order 16000 30 300 oracleEmpty framesC3 _
    (by
      intro fr hfr
      simp only [framesC3, List.mem_map] at hfr
      obtain ⟨i, _, rfl⟩ := hfr
      norm_num [frC3])
    (by
      norm_num [framesC3, frC3, List.range_succ, List.chain'_cons,
        List.chain'_singleton])
    (by
      norm_num [vad_collector, vadLoop, vadStep, ringPush, initState, pyInt,
        framesC3, frC3, oracleEmpty, List.range_succ])

/-- Claim C2: if the frame sequence is exhausted while triggered, exactly
one final segment (start_time, lastEnd) is emitted; in particular, for an
all-speech non-empty sequence under a valid configuration, exactly one
segment is emitted, from the first frame's timestamp to the end
(timestamp + duration) of the last frame. -/
theorem C2_final_segment :
    (∀ (vad : List Nat → Int → Bool) (sr : Int) (cap : Nat) (st : VCState)
        (le : ℚ), st.triggered = true →
        vadLoop vad sr cap st le [] = [(st.startTime, le)]) ∧
    (∀ (sr : Int) (fm pm : ℚ) (vad : List Nat → Int → Bool) (f0 : Frame)
        (rest : List Frame), 0 < fm → 0 ≤ pm →
        (∀ fr ∈ f0 :: rest, vad fr.data sr = true) →
        vad_collector sr fm pm vad (f0 :: rest) =
          some [(f0.timestamp,
            ((f0 :: rest).getLast (List.cons_ne_nil f0 rest)).timestamp +
              ((f0 :: rest).getLast (List.cons_ne_nil f0 rest)).duration)]) := by
  constructor
  · intro vad sr cap st le hst
    simp [vadLoop, hst]
  · intro sr fm pm vad f0 rest hf hp hall
    rw [vad_collector_pos sr fm pm vad (f0 :: rest) hf hp]
    rw [vadLoop_untriggered_speech vad sr (pyInt (pm / fm)).toNat initState 0
      f0 rest rfl (hall f0 (List.mem_cons_self f0 rest))]
    rw [vadLoop_all_speech vad sr (pyInt (pm / fm)).toNat rest _
      (f0.timestamp + f0.duration) rfl
      (fun f hf2 => hall f (List.mem_cons_of_mem f0 hf2))]
    have h := foldl_end_eq_getLast rest f0 0
    simp only [List.foldl_cons] at h
    rw [h]

/-- Claim C2 (witness): a two-frame all-speech run yields exactly the
segment from the first frame's start to the last frame's end. -/
theorem C2_final_segment_witness :
    vad_collector 16000 30 300 oracleTrue
      [⟨[], 0, 3 / 100⟩, ⟨[], 3 / 100, 3 / 100⟩] =
      some [((0 : ℚ), 3 / 50)] := by
  have h := C2_final_segment.2 16000 30 300 oracleTrue ⟨[], 0, 3 / 100⟩
    [⟨[], 3 / 100, 3 / 100⟩] (by norm_num) (by norm_num) (fun fr _ => rfl)
  rw [h]
  norm_num [List.getLast]

/-- Claim C3 (counterexample): on the synthetic sequence (frames 0-4
speech, frame 5 non-speech, frames 6-9 speech, 30 ms frames) the collector
emits two segments, but the gap between them is 0, not one frame width
(3/100 s): the first segment already extends through the non-speech
frame's end. -/
theorem C3_counterexample :
    vad_collector 16000 30 300 oracleEmpty framesC3 =
      some [((0 : ℚ), 9 / 50), (9 / 50, 3 / 10)] ∧
    ¬ ((9 / 50 : ℚ) - 9 / 50 = 3 / 100) := by
  constructor
  · norm_num [vad_collector, vadLoop, vadStep, ringPush, initState, pyInt,
      framesC3, frC3, oracleEmpty, List.range_succ]
  · norm_num

/-- Claim C3 (amended): on the synthetic sequence exactly two segments are
emitted; the first ends at the non-speech frame's start + duration, the
second is a new separate segment starting at the next speech frame's
timestamp, and the two segments abut exactly (zero gap). -/
theorem C3_two_segments :
    vad_collector 16000 30 300 oracleEmpty framesC3 =
      some [((frC3 0).timestamp, (frC3 5).timestamp + (frC3 5).duration),
            ((frC3 6).timestamp, (frC3 9).timestamp + (frC3 9).duration)] ∧
    (frC3 6).timestamp = (frC3 5).timestamp + (frC3 5).duration := by
  constructor
  · norm_num [vad_collector, vadLoop, vadStep, ringPush, initState, pyInt,
      framesC3, frC3, oracleEmpty, List.range_succ]
  · norm_num [frC3]

/-- Claim C4: whenever the collector transitions from Untriggered to
Triggered, the recorded start_time is the timestamp of the triggering frame
itself, whatever the contents of the padding window. -/
theorem C4_trigger_start (vad : List Nat → Int → Bool) (sr : Int) (cap : Nat)
    (st : VCState) (fr : Frame) (h1 : st.triggered = false)
    (h2 : vad fr.data sr = true) :
    (vadStep vad sr cap st fr).1.triggered = true ∧
    (vadStep vad sr cap st fr).1.startTime = fr.timestamp := by
  simp [vadStep, h1, h2]

/-- Claim C4 (witness): an untriggered state whose window already holds an
earlier speech-marked frame at time 5; triggering on a frame at time 7
records start_time 7, not 5. -/
theorem C4_trigger_start_witness :
    (vadStep oracleTrue 16000 10 ⟨[(⟨[], 5, 1⟩, true)], false, 0, []⟩
      ⟨[], 7, 1⟩).1.triggered = true ∧
    (vadStep oracleTrue 16000 10 ⟨[(⟨[], 5, 1⟩, true)], false, 0, []⟩
      ⟨[], 7, 1⟩).1.startTime = 7 :=
  C4_trigger_start oracleTrue 16000 10 ⟨[(⟨[], 5, 1⟩, true)], false, 0, []⟩
    ⟨[], 7, 1⟩ rfl rfl

/-- Claim C5: for a buffer of exactly k full frames (k * n bytes for
computed frame byte length n) plus a non-empty partial remainder shorter
than one frame, `frame_generator` yields exactly the k full frames, each
covering bytes entirely before the remainder. -/
theorem C5_exact_frames (fd : ℚ) (sr : Int) (audio : List Nat) (n : Int)
    (k : Nat) (r : Int)
    (hn : pyInt ((sr : ℚ) * (fd / 1000) * 2) = n) (h1 : 1 ≤ n)
    (hlen : (audio.length : Int) = k * n + r) (hr0 : 0 < r) (hrn : r < n) :
    frame_generator fd audio sr k =
      some ((List.range k).map fun i =>
        ⟨pySlice audio (i * n) (i * n + n),
         i * ((n : ℚ) / (sr : ℚ) / 2), (n : ℚ) / (sr : ℚ) / 2⟩) ∧
    ∀ i : Nat, i < k → ((i : Int) + 1) * n ≤ (audio.length : Int) - r := by
  constructor
  · simp only [frame_generator]
    rw [hn]
    rw [frameGenAux_run audio n r h1 hr0 hrn.le k k 0 0
      ((n : ℚ) / (sr : ℚ) / 2) le_rfl (by rw [sub_zero]; exact hlen)]
    simp
  · intro i hi
    have hik : (i : Int) + 1 ≤ (k : Int) := by exact_mod_cast hi
    have hn0 : (0 : Int) ≤ n := by omega
    have hmul := mul_le_mul_of_nonneg_right hik hn0
    linarith

/-- Claim C5 (witness): a 5-byte buffer with 2-byte frames (two full
frames plus one remainder byte) yields exactly the two full frames. -/
theorem C5_exact_frames_witness :
    frame_generator 1 [1, 2, 3, 4, 5] 1000 2 =
      some [⟨[1, 2], 0, 1 / 1000⟩, ⟨[3, 4], 1 / 1000, 1 / 1000⟩] := by
  have h := (C5_exact_frames 1 1000 [1, 2, 3, 4, 5] 2 2 1
    (by norm_num [pyInt]) (by norm_num) (by norm_num) (by norm_num)
    (by norm_num)).1
  rw [h]
  norm_num [List.range_succ, pySlice]
  decide

/-- Claim C6: with a valid configuration, an empty frame sequence yields
zero segments, and so does any sequence on which the oracle is always
false. -/
theorem C6_empty_and_silence (sr : Int) (fm pm : ℚ)
    (vad : List Nat → Int → Bool) (frames : List Frame)
    (hf : 0 < fm) (hp : 0 ≤ pm) :
    vad_collector sr fm pm vad [] = some [] ∧
    ((∀ fr ∈ frames, vad fr.data sr = false) →
      vad_collector sr fm pm vad frames = some []) := by
  constructor
  · rw [vad_collector_pos sr fm pm vad [] hf hp]
    simp [vadLoop, initState]
  · intro hall
    rw [vad_collector_pos sr fm pm vad frames hf hp]
    rw [vadLoop_all_silence vad sr (pyInt (pm / fm)).toNat frames initState 0
      rfl hall]

/-- Claim C6 (witness): an all-silence one-frame run yields zero
segments. -/
theorem C6_empty_and_silence_witness :
    vad_collector 16000 30 300 oracleFalse [⟨[], 0, 1⟩] = some [] :=
  (C6_empty_and_silence 16000 30 300 oracleFalse [⟨[], 0, 1⟩]
    (by norm_num) (by norm_num)).2 (fun fr _ => rfl)

/-- Claim C7 (counterexample): with sample_rate 1 and frame_duration 1 ms
the computed frame byte length n is 0, and on the non-empty buffer [0] the
slicing loop never reaches its exit condition: no amount of fuel makes
`frame_generator` finish. -/
theorem C7_counterexample : ¬ frameGenTerminates 1 [0] 1 :=
  frame_generator_stuck 1 1 [0] (by norm_num [pyInt]) (by simp)

/-- Claim C7 (amended): whenever the computed frame byte length
n = int(sample_rate * frame_duration_ms / 1000 * 2) is at least 1,
`frame_generator` terminates on every buffer (fuel equal to the buffer
length suffices) and produces a finite frame list. -/
theorem C7_terminates (fd : ℚ) (audio : List Nat) (sr : Int)
    (h1 : 1 ≤ pyInt ((sr : ℚ) * (fd / 1000) * 2)) :
    (frame_generator fd audio sr audio.length).isSome = true := by
  simp only [frame_generator]
  exact frameGenAux_terminates audio _ h1 audio.length 0 0 _ (by omega)

/-- Claim C7 (witness): with sample_rate 500 and 1 ms frames (n = 1), the
generator terminates on a 2-byte buffer. -/
theorem C7_terminates_witness :
    (frame_generator 1 [7, 8] 500 2).isSome = true :=
  C7_terminates 1 [7, 8] 500 (by norm_num [pyInt])

/-- Claim C8 (evaluation at the failing input): with frame_duration_ms = 0
neither function rejects the input with a configuration error:
`frame_generator` simply never terminates on a non-empty buffer, and
`vad_collector` fails on its very first statement (ZeroDivisionError from
padding_duration_ms / frame_duration_ms, modelled as `none`). -/
theorem C8_no_rejection :
    ¬ frameGenTerminates 0 [0] 16000 ∧
    vad_collector 16000 0 300 oracleTrue [] = none := by
  constructor
  · exact frame_generator_stuck 0 16000 [0] (by norm_num [pyInt]) (by simp)
  · simp [vad_collector]

/-- Claim C9: with a positive frame duration, the emitted segments do not
depend on padding_duration_ms at all — any two non-negative padding values
give identical outputs, because the ring buffer only feeds the
write-only voiced_frames accumulator. -/
theorem C9_padding_invariant (sr : Int) (fm p1 p2 : ℚ)
    (vad : List Nat → Int → Bool) (frames : List Frame)
    (hf : 0 < fm) (h1 : 0 ≤ p1) (h2 : 0 ≤ p2) :
    vad_collector sr fm p1 vad frames = vad_collector sr fm p2 vad frames := by
  rw [vad_collector_pos sr fm p1 vad frames hf h1,
      vad_collector_pos sr fm p2 vad frames hf h2]
  exact congrArg some
    (vadLoop_cap_indep vad sr frames _ _ initState initState 0 rfl rfl)

/-- Claim C9 (witness): padding 0 ms and padding 300 ms give the same
segments on the ten-frame synthetic run. -/
theorem C9_padding_invariant_witness :
    vad_collector 16000 30 0 oracleEmpty framesC3 =
      vad_collector 16000 30 300 oracleEmpty framesC3 :=
  C9_padding_invariant 16000 30 0 300 oracleEmpty framesC3
    (by norm_num) (by norm_num) (by norm_num)

/-- Claim C10: for a buffer whose byte length is an exact positive
multiple k * n of the computed frame byte length n, `frame_generator`
yields only k - 1 frames: the final full frame, ending exactly at the end
of the buffer, is dropped by the strict `offset + n < len` loop guard. -/
theorem C10_drops_final_frame (fd : ℚ) (sr : Int) (audio : List Nat)
    (n : Int) (k : Nat)
    (hn : pyInt ((sr : ℚ) * (fd / 1000) * 2) = n) (h1 : 1 ≤ n) (hk : 1 ≤ k)
    (hlen : (audio.length : Int) = k * n) :
    ∃ l, frame_generator fd audio sr k = some l ∧ l.length = k - 1 := by
  have H := frameGenAux_run audio n n h1 (by omega) le_rfl (k - 1) k 0 0
    ((n : ℚ) / (sr : ℚ) / 2) (by omega)
    (by
      have hcast : ((k - 1 : Nat) : Int) = (k : Int) - 1 := by omega
      rw [sub_zero, hcast, hlen]
      ring)
  refine ⟨(List.range (k - 1)).map fun i : Nat =>
      ⟨pySlice audio (0 + (i : Int) * n) (0 + (i : Int) * n + n),
       0 + (i : ℚ) * ((n : ℚ) / (sr : ℚ) / 2), (n : ℚ) / (sr : ℚ) / 2⟩, ?_, ?_⟩
  · simp only [frame_generator]
    rw [hn]
    exact H
  · simp

/-- Claim C10 (witness): a 2-byte buffer with 1-byte frames (an exact
multiple, k = 2) yields only one frame. -/
theorem C10_drops_final_frame_witness :
    ∃ l, frame_generator 1 [7, 8] 500 2 = some l ∧ l.length = 2 - 1 :=
  C10_drops_final_frame 1 500 [7, 8] 1 2 (by norm_num [pyInt]) (by norm_num)
    (by norm_num) (by norm_num)

end AutoEdit
